import Mathlib

/-!
A shallow embedding of the command-line front end in `cmd/jsonnetfmt.cpp`:
the argument processor (`process_args`, lines 100-216) and the run
orchestrator (`main`, lines 218-329).  The external formatting engine,
the file system and the output streams are modelled as oracles collected
in a `World`; every externally visible action of the orchestrator (file
reads, engine invocations, file writes, release of the engine handle) is
recorded in an event trace so that frame and temporal properties can be
stated.  Helpers that live in `utils.h`/`utils.cpp` (not part of this
repository snapshot) are modelled from the specification and marked as
such in their doc comments.
-/

namespace Jsonnetfmt

/-- Configuration read from command line flags (struct JsonnetConfig,
lines 75-89 of jsonnetfmt.cpp). -/
structure JsonnetConfig where
  inputFiles : List String
  outputFile : String
  filenameIsCode : Bool
  fmtInPlace : Bool
  fmtTest : Bool
deriving Repr, DecidableEq

/-- The default-constructed configuration (constructor at lines 83-88):
empty input list, empty output file, all booleans false. -/
def cfg0 : JsonnetConfig :=
  { inputFiles := [], outputFile := "", filenameIsCode := false,
    fmtInPlace := false, fmtTest := false }

/-- The formatting-option state held by the engine handle (JsonnetVm).
The engine is external; this record only mirrors the option values the
argument processor forwards through the setter calls
jsonnet_fmt_indent, jsonnet_fmt_max_blank_lines, jsonnet_fmt_comment,
jsonnet_fmt_string, jsonnet_fmt_pad_arrays, jsonnet_fmt_pad_objects,
jsonnet_fmt_pretty_field_names, jsonnet_fmt_sort_imports and
jsonnet_fmt_debug_desugaring. -/
structure VmState where
  indent : Int
  maxBlankLines : Int
  commentStyle : Char
  stringStyle : Char
  padArrays : Bool
  padObjects : Bool
  prettyFieldNames : Bool
  sortImports : Bool
  debugDesugaring : Bool
deriving Repr, DecidableEq

/-- Tri-state result of argument parsing (enum ArgStatus, lines 91-95). -/
inductive ArgStatus where
  | ARG_CONTINUE
  | ARG_SUCCESS
  | ARG_FAILURE
deriving Repr, DecidableEq

/-- Modelled from the spec: strtol_check (utils, not in this snapshot)
parses a token as an integer in base 10; parsing fails (none) on an
empty token or a token with non-digit characters.  The argument
processor separately rejects negative values. -/
def strtol_check (s : String) : Option Int :=
  if s.startsWith "-" then ((s.drop 1).toNat?).map (fun n => -(n : Int))
  else (s.toNat?).map (fun n => (n : Int))

/-- Modelled from the spec (normalization rule) and the usage text at
lines 67-70 of jsonnetfmt.cpp: a multi-character short-option cluster
such as -abc is expanded up front into -a -b -c; a token of length at
most 2 or beginning with two dashes is kept as is. -/
def expandCluster (a : String) : List String :=
  match a.data with
  | '-' :: c :: cs =>
    if c ≠ '-' ∧ cs ≠ [] then (c :: cs).map (fun ch => String.mk ['-', ch])
    else [a]
  | _ => [a]

/-- Modelled from the spec (normalization rule) and the usage text at
lines 67-70 of jsonnetfmt.cpp: simplify_args (utils, not in this
snapshot) expands short-option clusters once, up front; the token --
suppresses option processing, so it and everything after it is kept
verbatim. -/
def simplify_args : List String → List String
  | [] => []
  | a :: rest =>
    if a = "--" then a :: rest
    else expandCluster a ++ simplify_args rest

/-- State of the token scan inside process_args: the configuration and
engine options built so far, the collected positional arguments
(remaining_args) and the diagnostics printed to the error stream. -/
structure ScanSt where
  cfg : JsonnetConfig
  vm : VmState
  rem : List String
  errs : List String
deriving Repr, DecidableEq

/-- Append one diagnostic line to the scan state. -/
def pushErr (s : ScanSt) (m : String) : ScanSt :=
  { s with errs := s.errs ++ [m] }

/-- Result of the token scan: `done` falls through to the post-scan
validation (the loop at lines 107-198 ended or broke at --); `stop`
returns from process_args inside the loop with ARG_SUCCESS or
ARG_FAILURE. -/
inductive ScanRes where
  | done (s : ScanSt)
  | stop (st : ArgStatus) (s : ScanSt)
deriving Repr, DecidableEq

/-- The token scan of process_args (the for loop at lines 107-198 of
jsonnetfmt.cpp), one equation per token class, in the source order of
the if/else chain.  Value-consuming options take the next token; per
the spec, a missing next token is treated as the empty string. -/
def scanArgs : List String → ScanSt → ScanRes
  | [], s => ScanRes.done s
  | t :: rest, s =>
    if t = "-h" ∨ t = "--help" then
      ScanRes.stop ArgStatus.ARG_SUCCESS s
    else if t = "-v" ∨ t = "--version" then
      ScanRes.stop ArgStatus.ARG_SUCCESS s
    else if t = "-e" ∨ t = "--exec" then
      scanArgs rest { s with cfg := { s.cfg with filenameIsCode := true } }
    else if t = "-o" ∨ t = "--output-file" then
      match rest with
      | [] => ScanRes.stop ArgStatus.ARG_FAILURE
          (pushErr s "ERROR: -o argument was empty string")
      | v :: rest2 =>
        if v = "" then
          ScanRes.stop ArgStatus.ARG_FAILURE
            (pushErr s "ERROR: -o argument was empty string")
        else scanArgs rest2 { s with cfg := { s.cfg with outputFile := v } }
    else if t = "--" then
      ScanRes.done { s with rem := s.rem ++ rest }
    else if t = "-i" ∨ t = "--in-place" then
      scanArgs rest { s with cfg := { s.cfg with fmtInPlace := true } }
    else if t = "--test" then
      scanArgs rest { s with cfg := { s.cfg with fmtTest := true } }
    else if t = "-n" ∨ t = "--indent" then
      match rest with
      | [] => ScanRes.stop ArgStatus.ARG_FAILURE
          (pushErr s "ERROR: invalid --indent value: ")
      | v :: rest2 =>
        match strtol_check v with
        | none => ScanRes.stop ArgStatus.ARG_FAILURE
            (pushErr s ("ERROR: invalid --indent value: " ++ v))
        | some l =>
          if l < 0 then
            ScanRes.stop ArgStatus.ARG_FAILURE
              (pushErr s ("ERROR: invalid --indent value: " ++ v))
          else scanArgs rest2 { s with vm := { s.vm with indent := l } }
    else if t = "--max-blank-lines" then
      match rest with
      | [] => ScanRes.stop ArgStatus.ARG_FAILURE
          (pushErr s "ERROR: invalid --max-blank-lines value: ")
      | v :: rest2 =>
        match strtol_check v with
        | none => ScanRes.stop ArgStatus.ARG_FAILURE
            (pushErr s ("ERROR: invalid --max-blank-lines value: " ++ v))
        | some l =>
          if l < 0 then
            ScanRes.stop ArgStatus.ARG_FAILURE
              (pushErr s ("ERROR: invalid --max-blank-lines value: " ++ v))
          else scanArgs rest2 { s with vm := { s.vm with maxBlankLines := l } }
    else if t = "--comment-style" then
      match rest with
      | [] => ScanRes.stop ArgStatus.ARG_FAILURE
          (pushErr s "ERROR: invalid --comment-style value: ")
      | v :: rest2 =>
        if v = "h" then scanArgs rest2 { s with vm := { s.vm with commentStyle := 'h' } }
        else if v = "s" then scanArgs rest2 { s with vm := { s.vm with commentStyle := 's' } }
        else if v = "l" then scanArgs rest2 { s with vm := { s.vm with commentStyle := 'l' } }
        else ScanRes.stop ArgStatus.ARG_FAILURE
          (pushErr s ("ERROR: invalid --comment-style value: " ++ v))
    else if t = "--string-style" then
      match rest with
      | [] => ScanRes.stop ArgStatus.ARG_FAILURE
          (pushErr s "ERROR: invalid --string-style value: ")
      | v :: rest2 =>
        if v = "d" then scanArgs rest2 { s with vm := { s.vm with stringStyle := 'd' } }
        else if v = "s" then scanArgs rest2 { s with vm := { s.vm with stringStyle := 's' } }
        else if v = "l" then scanArgs rest2 { s with vm := { s.vm with stringStyle := 'l' } }
        else ScanRes.stop ArgStatus.ARG_FAILURE
          (pushErr s ("ERROR: invalid --string-style value: " ++ v))
    else if t = "--pad-arrays" then
      scanArgs rest { s with vm := { s.vm with padArrays := true } }
    else if t = "--no-pad-arrays" then
      scanArgs rest { s with vm := { s.vm with padArrays := false } }
    else if t = "--pad-objects" then
      scanArgs rest { s with vm := { s.vm with padObjects := true } }
    else if t = "--no-pad-objects" then
      scanArgs rest { s with vm := { s.vm with padObjects := false } }
    else if t = "--pretty-field-names" then
      scanArgs rest { s with vm := { s.vm with prettyFieldNames := true } }
    else if t = "--no-pretty-field-names" then
      scanArgs rest { s with vm := { s.vm with prettyFieldNames := false } }
    else if t = "--sort-imports" then
      scanArgs rest { s with vm := { s.vm with sortImports := true } }
    else if t = "--no-sort-imports" then
      scanArgs rest { s with vm := { s.vm with sortImports := false } }
    else if t = "--debug-desugaring" then
      scanArgs rest { s with vm := { s.vm with debugDesugaring := true } }
    else if 1 < t.length ∧ t.data.head? = some '-' then
      ScanRes.stop ArgStatus.ARG_FAILURE
        (pushErr s ("ERROR: unrecognized argument: " ++ t))
    else
      scanArgs rest { s with rem := s.rem ++ [t] }

/-- The initial scan state: default configuration, the given engine
option state, no positionals, no diagnostics. -/
def initSt (vm0 : VmState) : ScanSt :=
  { cfg := cfg0, vm := vm0, rem := [], errs := [] }

/-- All flag spellings recognized by the if/else chain of the token
scan (lines 109-191 of jsonnetfmt.cpp). -/
def recognizedFlags : List String :=
  ["-h", "--help", "-v", "--version", "-e", "--exec", "-o", "--output-file",
   "--", "-i", "--in-place", "--test", "-n", "--indent", "--max-blank-lines",
   "--comment-style", "--string-style", "--pad-arrays", "--no-pad-arrays",
   "--pad-objects", "--no-pad-objects", "--pretty-field-names",
   "--no-pretty-field-names", "--sort-imports", "--no-sort-imports",
   "--debug-desugaring"]

/-- process_args (lines 100-216 of jsonnetfmt.cpp): run the token scan,
then the post-scan validation (lines 200-215): fail if no positional
argument was collected; fail if neither test nor in-place mode is set
and more than one positional was collected; otherwise the positional
list becomes inputFiles and the status is ARG_CONTINUE.  Returns the
status, the configuration, the engine option state and the diagnostics
printed to the error stream. -/
def process_args (args : List String) (vm0 : VmState) :
    ArgStatus × JsonnetConfig × VmState × List String :=
  match scanArgs args (initSt vm0) with
  | ScanRes.stop st s => (st, s.cfg, s.vm, s.errs)
  | ScanRes.done s =>
    let want := if s.cfg.filenameIsCode then "code" else "filename"
    if s.rem.length = 0 then
      (ArgStatus.ARG_FAILURE, s.cfg, s.vm,
        s.errs ++ ["ERROR: must give " ++ want])
    else if ¬s.cfg.fmtTest ∧ ¬s.cfg.fmtInPlace ∧ 1 < s.rem.length then
      (ArgStatus.ARG_FAILURE, s.cfg, s.vm,
        s.errs ++ ["ERROR: only one " ++ want ++ " is allowed"])
    else
      (ArgStatus.ARG_CONTINUE, { s.cfg with inputFiles := s.rem }, s.vm, s.errs)

/-- Externally visible actions of the orchestrator, recorded in order:
a read attempt of an input (file path or the stdin sentinel), an
invocation of jsonnet_fmt_snippet, a write attempt (the empty path
stands for standard output), and the release of the engine handle by
jsonnet_destroy. -/
inductive Event where
  | read (file : String)
  | fmtCall (file : String)
  | write (path : String) (content : String)
  | destroy
deriving Repr, DecidableEq

/-- Outcome of a read of an input that is not inline code: the content,
an I/O failure (read_input returns false after reporting), or a C++
exception thrown during the read and unwinding to the catch handlers at
lines 320-327. -/
inductive ReadResult where
  | ok (content : String)
  | fail
  | exn
deriving Repr, DecidableEq

/-- Outcome of jsonnet_fmt_snippet (line 259/298): formatted output
with the error flag clear, an error message with the flag set, or an
exception unwinding to the catch handlers. -/
inductive FmtOut where
  | ok (output : String)
  | err (msg : String)
  | exn
deriving Repr, DecidableEq

/-- Outcome of write_output_file: success, reported failure, or an
exception unwinding to the catch handlers. -/
inductive WriteOut where
  | ok
  | fail
  | exn
deriving Repr, DecidableEq

/-- The environment of one run: the file system and standard input
(fileContents, consulted for non-code inputs, with the token - standing
for standard input), the external formatting engine (fmt, a function of
the engine option state, the display name and the source text), and the
result of each attempted write (writeResult, a function of the target
path - empty for standard output - and the content). -/
structure World where
  fileContents : String → ReadResult
  fmt : VmState → String → String → FmtOut
  writeResult : String → String → WriteOut

/-- Modelled from the spec: read_input (utils, not in this snapshot)
yields the entry itself as the source text when filenameIsCode is set
(no file system access), and otherwise the contents of the named file
or of standard input for the sentinel -. -/
def readOf (w : World) (isCode : Bool) (f : String) : ReadResult :=
  if isCode then ReadResult.ok f else w.fileContents f

/-- The read events emitted by read_input: none for inline code, one
read attempt otherwise. -/
def readEvents (isCode : Bool) (f : String) : List Event :=
  if isCode then [] else [Event.read f]

/-- The outcome of a whole run: the process exit status, the
diagnostics printed to the error stream, and the event trace. -/
structure RunResult where
  exit : Nat
  errs : List String
  events : List Event
deriving Repr, DecidableEq

/-- Prefix the trace of a run outcome with the diagnostics and events
of an already-processed file. -/
def RunResult.pre (es : List String) (evs : List Event) (r : RunResult) : RunResult :=
  ⟨r.exit, es ++ r.errs, evs ++ r.events⟩

/-- Diagnostic printed by the catch handlers at lines 320-327 when an
exception unwinds out of the try block; the engine handle is not
released on this path. -/
def internalErr : String := "Internal error (please report this)"

/-- Modelled from the spec: diagnostic reported for an unreadable
input. -/
def readErr (f : String) : String := "ERROR: failed to read input: " ++ f

/-- Modelled from the spec: diagnostic reported for a failed write. -/
def writeErr (p : String) : String := "ERROR: failed to write output: " ++ p

/-- One iteration of the in-place/test loop body (lines 236-287 of
jsonnetfmt.cpp) for input f: the in-place rejections of the stdin
sentinel and of --exec, the read, the engine call, and then either the
test comparison or the write-on-difference.  `halt r` means the loop
body returned from main with outcome r; `cont evs` means the iteration
finished and the loop proceeds to the next input after emitting evs. -/
inductive StepOut where
  | cont (evs : List Event)
  | halt (r : RunResult)
deriving Repr, DecidableEq

def fileStep (w : World) (cfg : JsonnetConfig) (vm : VmState) (f : String) : StepOut :=
  if cfg.fmtInPlace ∧ f = "-" then
    StepOut.halt ⟨1, ["ERROR: cannot use --in-place with stdin"], [Event.destroy]⟩
  else if cfg.fmtInPlace ∧ cfg.filenameIsCode then
    StepOut.halt ⟨1, ["ERROR: cannot use --in-place with --exec"], [Event.destroy]⟩
  else
    match readOf w cfg.filenameIsCode f with
    | ReadResult.exn => StepOut.halt ⟨1, [internalErr], readEvents cfg.filenameIsCode f⟩
    | ReadResult.fail => StepOut.halt
        ⟨1, [readErr f], readEvents cfg.filenameIsCode f ++ [Event.destroy]⟩
    | ReadResult.ok input =>
      match w.fmt vm f input with
      | FmtOut.exn => StepOut.halt
          ⟨1, [internalErr], readEvents cfg.filenameIsCode f ++ [Event.fmtCall f]⟩
      | FmtOut.err m => StepOut.halt
          ⟨1, [m], readEvents cfg.filenameIsCode f ++ [Event.fmtCall f, Event.destroy]⟩
      | FmtOut.ok output =>
        if cfg.fmtTest then
          if output = input then
            StepOut.cont (readEvents cfg.filenameIsCode f ++ [Event.fmtCall f])
          else StepOut.halt
            ⟨2, [], readEvents cfg.filenameIsCode f ++ [Event.fmtCall f, Event.destroy]⟩
        else
          if output = input then
            StepOut.cont (readEvents cfg.filenameIsCode f ++ [Event.fmtCall f])
          else
            match w.writeResult (if cfg.fmtInPlace then f else cfg.outputFile) output with
            | WriteOut.ok => StepOut.cont
                (readEvents cfg.filenameIsCode f ++
                  [Event.fmtCall f,
                   Event.write (if cfg.fmtInPlace then f else cfg.outputFile) output])
            | WriteOut.fail => StepOut.halt
                ⟨1, [writeErr (if cfg.fmtInPlace then f else cfg.outputFile)],
                 readEvents cfg.filenameIsCode f ++
                   [Event.fmtCall f,
                    Event.write (if cfg.fmtInPlace then f else cfg.outputFile) output,
                    Event.destroy]⟩
            | WriteOut.exn => StepOut.halt
                ⟨1, [internalErr],
                 readEvents cfg.filenameIsCode f ++
                   [Event.fmtCall f,
                    Event.write (if cfg.fmtInPlace then f else cfg.outputFile) output]⟩

/-- The in-place/test loop (lines 234-288): iterate the inputs in
order; when the whole list is processed, release the engine handle and
return success. -/
def fmtLoop (w : World) (cfg : JsonnetConfig) (vm : VmState) : List String → RunResult
  | [] => ⟨0, [], [Event.destroy]⟩
  | f :: rest =>
    match fileStep w cfg vm f with
    | StepOut.halt r => r
    | StepOut.cont evs => RunResult.pre [] evs (fmtLoop w cfg vm rest)

/-- The single-shot branch (lines 289-315): read the unique input,
format it, and write the result unconditionally to the named output
file or standard output (empty path). -/
def singleShot (w : World) (cfg : JsonnetConfig) (vm : VmState) : RunResult :=
  match readOf w cfg.filenameIsCode (cfg.inputFiles.headD "") with
  | ReadResult.exn =>
      ⟨1, [internalErr], readEvents cfg.filenameIsCode (cfg.inputFiles.headD "")⟩
  | ReadResult.fail =>
      ⟨1, [readErr (cfg.inputFiles.headD "")],
       readEvents cfg.filenameIsCode (cfg.inputFiles.headD "") ++ [Event.destroy]⟩
  | ReadResult.ok input =>
    match w.fmt vm (cfg.inputFiles.headD "") input with
    | FmtOut.exn =>
        ⟨1, [internalErr],
         readEvents cfg.filenameIsCode (cfg.inputFiles.headD "") ++
           [Event.fmtCall (cfg.inputFiles.headD "")]⟩
    | FmtOut.err m =>
        ⟨1, [m],
         readEvents cfg.filenameIsCode (cfg.inputFiles.headD "") ++
           [Event.fmtCall (cfg.inputFiles.headD ""), Event.destroy]⟩
    | FmtOut.ok output =>
      match w.writeResult cfg.outputFile output with
      | WriteOut.ok =>
          ⟨0, [],
           readEvents cfg.filenameIsCode (cfg.inputFiles.headD "") ++
             [Event.fmtCall (cfg.inputFiles.headD ""), Event.write cfg.outputFile output,
              Event.destroy]⟩
      | WriteOut.fail =>
          ⟨1, [writeErr cfg.outputFile],
           readEvents cfg.filenameIsCode (cfg.inputFiles.headD "") ++
             [Event.fmtCall (cfg.inputFiles.headD ""), Event.write cfg.outputFile output,
              Event.destroy]⟩
      | WriteOut.exn =>
          ⟨1, [internalErr],
           readEvents cfg.filenameIsCode (cfg.inputFiles.headD "") ++
             [Event.fmtCall (cfg.inputFiles.headD ""), Event.write cfg.outputFile output]⟩

/-- Mode selection inside main (line 234): the in-place/test loop when
either flag is set, the single-shot branch otherwise. -/
def orchestrate (w : World) (cfg : JsonnetConfig) (vm : VmState) : RunResult :=
  if cfg.fmtInPlace ∨ cfg.fmtTest then fmtLoop w cfg vm cfg.inputFiles
  else singleShot w cfg vm

/-- main (lines 218-329): create the engine handle (its option state is
the parameter vm0), parse the arguments, and on ARG_CONTINUE run the
orchestrator; on ARG_SUCCESS or ARG_FAILURE release the handle and exit
with 0 or 1 (lines 224-227).  argv is the argument vector after the
program name. -/
def mainRun (w : World) (vm0 : VmState) (argv : List String) : RunResult :=
  match process_args (simplify_args argv) vm0 with
  | (ArgStatus.ARG_CONTINUE, cfg, vm, errs) =>
      let r := orchestrate w cfg vm
      ⟨r.exit, errs ++ r.errs, r.events⟩
  | (ArgStatus.ARG_SUCCESS, _, _, errs) => ⟨0, errs, [Event.destroy]⟩
  | (ArgStatus.ARG_FAILURE, _, _, errs) => ⟨1, errs, [Event.destroy]⟩

/-- An arbitrary engine option state, used only to instantiate concrete
runs. -/
def vmAny : VmState :=
  { indent := 2, maxBlankLines := 2, commentStyle := 's', stringStyle := 's',
    padArrays := false, padObjects := true, prettyFieldNames := true,
    sortImports := true, debugDesugaring := false }

/-- A concrete world in which every input reads successfully (content
x), the engine is the identity on the source text (so formatting never
changes anything and never errors), and every write succeeds. -/
def wId : World :=
  { fileContents := fun _ => ReadResult.ok "x",
    fmt := fun _ _ input => FmtOut.ok input,
    writeResult := fun _ _ => WriteOut.ok }

/-- A concrete world in which reading file a throws a C++ exception
that unwinds to the catch handlers of main. -/
def wExn : World :=
  { fileContents := fun f => if f = "a" then ReadResult.exn else ReadResult.ok "x",
    fmt := fun _ _ input => FmtOut.ok input,
    writeResult := fun _ _ => WriteOut.ok }

/-- Count of engine-handle releases in a trace. -/
def destroyCount : List Event → Nat
  | [] => 0
  | Event.destroy :: rest => destroyCount rest + 1
  | _ :: rest => destroyCount rest

/-- A concrete world in which the engine reports an error on input file
b and is the identity elsewhere. -/
def wErrB : World :=
  { fileContents := fun _ => ReadResult.ok "x",
    fmt := fun _ f input => if f = "b" then FmtOut.err "boom" else FmtOut.ok input,
    writeResult := fun _ _ => WriteOut.ok }

/-- A concrete world in which every input reads as x and the engine
returns a different output y exactly on input file b. -/
def wDiffB : World :=
  { fileContents := fun _ => ReadResult.ok "x",
    fmt := fun _ f input => if f = "b" then FmtOut.ok "y" else FmtOut.ok input,
    writeResult := fun _ _ => WriteOut.ok }

/-- A concrete test-mode configuration over three input files. -/
def cfgTest3 : JsonnetConfig :=
  { inputFiles := ["a", "b", "c"], outputFile := "", filenameIsCode := false,
    fmtInPlace := false, fmtTest := true }

/-- The configuration produced by parsing the argument vector
-i a -: in-place mode over a regular file followed by the stdin
sentinel. -/
def cfgAD : JsonnetConfig :=
  { inputFiles := ["a", "-"], outputFile := "", filenameIsCode := false,
    fmtInPlace := true, fmtTest := false }

/-- A concrete in-place configuration over one input file. -/
def cfgInPlace1 : JsonnetConfig :=
  { inputFiles := ["a"], outputFile := "", filenameIsCode := false,
    fmtInPlace := true, fmtTest := false }

/-- A concrete configuration with both in-place and test mode set. -/
def cfgBoth : JsonnetConfig :=
  { inputFiles := ["a"], outputFile := "", filenameIsCode := false,
    fmtInPlace := true, fmtTest := true }

/-- A concrete single-shot configuration over one input file. -/
def cfgSingle : JsonnetConfig :=
  { inputFiles := ["a"], outputFile := "", filenameIsCode := false,
    fmtInPlace := false, fmtTest := false }

/-- The configuration produced by parsing the argument vector
-i -e x: in-place mode with inline code. -/
def cfgIE : JsonnetConfig :=
  { inputFiles := ["x"], outputFile := "", filenameIsCode := true,
    fmtInPlace := true, fmtTest := false }

/-- The round-trip property of test mode: every input of the list
formats to itself under the engine of the world. -/
def testsClean (w : World) (cfg : JsonnetConfig) (vm : VmState) (files : List String) : Prop :=
  ∀ f c o, f ∈ files → readOf w cfg.filenameIsCode f = ReadResult.ok c →
    w.fmt vm f c = FmtOut.ok o → o = c

/-- Every event emitted by a read attempt is the read of that input. -/
theorem readEvents_mem {b : Bool} {f : String} {e : Event} (h : e ∈ readEvents b f) :
    e = Event.read f := by
  cases b <;> simp_all [readEvents]

theorem destroyCount_append (l1 l2 : List Event) :
    destroyCount (l1 ++ l2) = destroyCount l1 + destroyCount l2 := by
  induction l1 with
  | nil => simp [destroyCount]
  | cons e r ih =>
    cases e <;> simp [destroyCount, ih]
    omega

theorem destroyCount_readEvents (b : Bool) (f : String) :
    destroyCount (readEvents b f) = 0 := by
  cases b <;> simp [readEvents, destroyCount]

/-- Every early return from inside the in-place/test loop carries exit
status 1 or 2, never 0. -/
theorem fileStep_halt_exit {w : World} {cfg : JsonnetConfig} {vm : VmState} {f : String}
    {r : RunResult} (h : fileStep w cfg vm f = StepOut.halt r) :
    r.exit = 1 ∨ r.exit = 2 := by
  unfold fileStep at h
  repeat' split at h
  all_goals (try cases h)
  all_goals simp_all

/-- A loop iteration that proceeds to the next file releases nothing. -/
theorem fileStep_cont_destroy {w : World} {cfg : JsonnetConfig} {vm : VmState} {f : String}
    {evs : List Event} (h : fileStep w cfg vm f = StepOut.cont evs) :
    destroyCount evs = 0 := by
  unfold fileStep at h
  repeat' split at h
  all_goals (try cases h)
  all_goals simp_all [destroyCount_append, destroyCount_readEvents, destroyCount]

/-- When no external call throws, an early return from inside the loop
releases the engine handle exactly once. -/
theorem fileStep_halt_destroy {w : World} {cfg : JsonnetConfig} {vm : VmState} {f : String}
    {r : RunResult}
    (hRd : readOf w cfg.filenameIsCode f ≠ ReadResult.exn)
    (hF : ∀ c, w.fmt vm f c ≠ FmtOut.exn)
    (hW : ∀ p c, w.writeResult p c ≠ WriteOut.exn)
    (h : fileStep w cfg vm f = StepOut.halt r) :
    destroyCount r.events = 1 := by
  unfold fileStep at h
  repeat' split at h
  all_goals (try cases h)
  all_goals simp_all [destroyCount_append, destroyCount_readEvents, destroyCount]

/-- A read event emitted by a loop iteration names the input of that
iteration. -/
theorem fileStep_cont_read {w : World} {cfg : JsonnetConfig} {vm : VmState} {f g : String}
    {evs : List Event} (h : fileStep w cfg vm f = StepOut.cont evs)
    (hg : Event.read g ∈ evs) : g = f := by
  cases hcode : cfg.filenameIsCode
  all_goals unfold fileStep at h
  all_goals repeat' split at h
  all_goals (try cases h)
  all_goals simp_all [readEvents]

theorem fileStep_halt_read {w : World} {cfg : JsonnetConfig} {vm : VmState} {f g : String}
    {r : RunResult} (h : fileStep w cfg vm f = StepOut.halt r)
    (hg : Event.read g ∈ r.events) : g = f := by
  cases hcode : cfg.filenameIsCode
  all_goals unfold fileStep at h
  all_goals repeat' split at h
  all_goals (try cases h)
  all_goals simp_all [readEvents]

/-- An engine-call event emitted by a loop iteration names the input of that
iteration. -/
theorem fileStep_cont_fmtCall {w : World} {cfg : JsonnetConfig} {vm : VmState} {f g : String}
    {evs : List Event} (h : fileStep w cfg vm f = StepOut.cont evs)
    (hg : Event.fmtCall g ∈ evs) : g = f := by
  cases hcode : cfg.filenameIsCode
  all_goals unfold fileStep at h
  all_goals repeat' split at h
  all_goals (try cases h)
  all_goals simp_all [readEvents]

theorem fileStep_halt_fmtCall {w : World} {cfg : JsonnetConfig} {vm : VmState} {f g : String}
    {r : RunResult} (h : fileStep w cfg vm f = StepOut.halt r)
    (hg : Event.fmtCall g ∈ r.events) : g = f := by
  cases hcode : cfg.filenameIsCode
  all_goals unfold fileStep at h
  all_goals repeat' split at h
  all_goals (try cases h)
  all_goals simp_all [readEvents]

/-- A write event emitted by an iteration that proceeds: the target is
the input itself in in-place mode (the output file otherwise), the
content is the engine output, it differs from the input that was read,
the write succeeded, and test mode is off. -/
theorem fileStep_cont_write {w : World} {cfg : JsonnetConfig} {vm : VmState} {f p o : String}
    {evs : List Event} (h : fileStep w cfg vm f = StepOut.cont evs)
    (hpo : Event.write p o ∈ evs) :
    cfg.fmtTest = false ∧ p = (if cfg.fmtInPlace = true then f else cfg.outputFile)
    ∧ ∃ c, readOf w cfg.filenameIsCode f = ReadResult.ok c
        ∧ w.fmt vm f c = FmtOut.ok o ∧ o ≠ c ∧ w.writeResult p o = WriteOut.ok := by
  cases hcode : cfg.filenameIsCode
  all_goals unfold fileStep at h
  all_goals repeat' split at h
  all_goals (try cases h)
  all_goals simp_all [readEvents]

/-- A write event emitted by an iteration that returns early: the run
exits with the generic failure code, the target and content are as in
the proceeding case, and test mode is off. -/
theorem fileStep_halt_write {w : World} {cfg : JsonnetConfig} {vm : VmState} {f p o : String}
    {r : RunResult} (h : fileStep w cfg vm f = StepOut.halt r)
    (hpo : Event.write p o ∈ r.events) :
    cfg.fmtTest = false ∧ p = (if cfg.fmtInPlace = true then f else cfg.outputFile)
    ∧ r.exit = 1
    ∧ ∃ c, readOf w cfg.filenameIsCode f = ReadResult.ok c
        ∧ w.fmt vm f c = FmtOut.ok o ∧ o ≠ c := by
  cases hcode : cfg.filenameIsCode
  all_goals unfold fileStep at h
  all_goals repeat' split at h
  all_goals (try cases h)
  all_goals simp_all [readEvents]

/-- The in-place rejection of the stdin sentinel (lines 240-244). -/
theorem fileStep_stdin {w : World} {cfg : JsonnetConfig} {vm : VmState}
    (hip : cfg.fmtInPlace = true) :
    fileStep w cfg vm "-" =
      StepOut.halt ⟨1, ["ERROR: cannot use --in-place with stdin"], [Event.destroy]⟩ := by
  simp [fileStep, hip]

/-- With in-place mode and filenameIsCode both set, the first loop
iteration rejects before attempting any I/O (lines 240-250). -/
theorem fileStep_reject {w : World} {cfg : JsonnetConfig} {vm : VmState} {f : String}
    (hip : cfg.fmtInPlace = true) (hcode : cfg.filenameIsCode = true) :
    ∃ es, fileStep w cfg vm f = StepOut.halt ⟨1, es, [Event.destroy]⟩ := by
  by_cases hf : f = "-"
  · subst hf
    exact ⟨_, fileStep_stdin hip⟩
  · exact ⟨["ERROR: cannot use --in-place with --exec"],
      by simp [fileStep, hip, hcode, hf]⟩

/-- With in-place mode set, a run whose input list contains the stdin
sentinel never exits with success. -/
theorem fmtLoop_dash {w : World} {cfg : JsonnetConfig} {vm : VmState}
    (hip : cfg.fmtInPlace = true) :
    ∀ files : List String, "-" ∈ files → (fmtLoop w cfg vm files).exit ≠ 0 := by
  intro files
  induction files with
  | nil => simp
  | cons f rest ih =>
    intro hmem
    by_cases hf : f = "-"
    · subst hf
      simp [fmtLoop, fileStep_stdin hip]
    · have hm2 : "-" ∈ rest := by
        rcases List.mem_cons.mp hmem with h | h
        · exact absurd h.symm hf
        · exact h
      rcases hstep : fileStep w cfg vm f with evs | r
      · simp only [fmtLoop, hstep, RunResult.pre]
        exact ih hm2
      · rcases fileStep_halt_exit hstep with h1 | h2 <;> simp [fmtLoop, hstep] <;> omega

/-- When no external call throws, the in-place/test loop releases the
engine handle exactly once on every path. -/
theorem fmtLoop_destroy {w : World} {cfg : JsonnetConfig} {vm : VmState}
    (hRd : ∀ g, readOf w cfg.filenameIsCode g ≠ ReadResult.exn)
    (hF : ∀ g c, w.fmt vm g c ≠ FmtOut.exn)
    (hW : ∀ p c, w.writeResult p c ≠ WriteOut.exn) :
    ∀ files : List String, destroyCount (fmtLoop w cfg vm files).events = 1 := by
  intro files
  induction files with
  | nil => simp [fmtLoop, destroyCount]
  | cons f rest ih =>
    rcases hstep : fileStep w cfg vm f with evs | r
    · simp [fmtLoop, hstep, RunResult.pre, destroyCount_append,
        fileStep_cont_destroy hstep, ih]
    · simp [fmtLoop, hstep, fileStep_halt_destroy (hRd f) (hF f) hW hstep]

/-- In test mode the loop never emits a write event. -/
theorem fmtLoop_nowrite {w : World} {cfg : JsonnetConfig} {vm : VmState}
    (hT : cfg.fmtTest = true) :
    ∀ (files : List String) (p o : String),
      Event.write p o ∉ (fmtLoop w cfg vm files).events := by
  intro files
  induction files with
  | nil => intro p o; simp [fmtLoop]
  | cons f rest ih =>
    intro p o hw
    rcases hstep : fileStep w cfg vm f with evs | r
    · simp only [fmtLoop, hstep, RunResult.pre, List.nil_append] at hw
      rcases List.mem_append.mp hw with h | h
      · have := (fileStep_cont_write hstep h).1
        rw [hT] at this
        cases this
      · exact ih p o h
    · simp only [fmtLoop, hstep] at hw
      have := (fileStep_halt_write hstep hw).1
      rw [hT] at this
      cases this

/-- In in-place mode, every write event of the loop targets the file it
was produced from, carries the engine output for that file, and occurs
only when that output differs from the input that was read. -/
theorem fmtLoop_write_char {w : World} {cfg : JsonnetConfig} {vm : VmState}
    (hip : cfg.fmtInPlace = true) :
    ∀ (files : List String) (p o : String),
      Event.write p o ∈ (fmtLoop w cfg vm files).events →
      ∃ c, readOf w cfg.filenameIsCode p = ReadResult.ok c
        ∧ w.fmt vm p c = FmtOut.ok o ∧ o ≠ c := by
  intro files
  induction files with
  | nil => intro p o h; simp [fmtLoop] at h
  | cons f rest ih =>
    intro p o hw
    rcases hstep : fileStep w cfg vm f with evs | r
    · simp only [fmtLoop, hstep, RunResult.pre, List.nil_append] at hw
      rcases List.mem_append.mp hw with h | h
      · obtain ⟨hT2, hp, c, hc, ho, hne, hwr⟩ := fileStep_cont_write hstep h
        rw [hip, if_pos rfl] at hp
        subst hp
        exact ⟨c, hc, ho, hne⟩
      · exact ih p o h
    · simp only [fmtLoop, hstep] at hw
      obtain ⟨hT2, hp, hex, c, hc, ho, hne⟩ := fileStep_halt_write hstep hw
      rw [hip, if_pos rfl] at hp
      subst hp
      exact ⟨c, hc, ho, hne⟩

/-- A failed write terminates the loop with the generic failure exit
code. -/
theorem fmtLoop_write_fail {w : World} {cfg : JsonnetConfig} {vm : VmState} :
    ∀ (files : List String) (p o : String),
      Event.write p o ∈ (fmtLoop w cfg vm files).events →
      w.writeResult p o = WriteOut.fail → (fmtLoop w cfg vm files).exit = 1 := by
  intro files
  induction files with
  | nil => intro p o h; simp [fmtLoop] at h
  | cons f rest ih =>
    intro p o hw hfail
    rcases hstep : fileStep w cfg vm f with evs | r
    · simp only [fmtLoop, hstep, RunResult.pre, List.nil_append] at hw ⊢
      rcases List.mem_append.mp hw with h | h
      · obtain ⟨_, _, c, _, _, _, hok⟩ := fileStep_cont_write hstep h
        rw [hok] at hfail
        cases hfail
      · exact ih p o h hfail
    · simp only [fmtLoop, hstep] at hw ⊢
      exact (fileStep_halt_write hstep hw).2.2.1

/-- With in-place mode set, the loop never performs I/O on the stdin
sentinel: a - entry is rejected before its read, and every read or
write of another iteration names that other input, so no read or write
of - ever appears in the trace. -/
theorem fmtLoop_no_dash_io {w : World} {cfg : JsonnetConfig} {vm : VmState}
    (hip : cfg.fmtInPlace = true) :
    ∀ files : List String,
      Event.read "-" ∉ (fmtLoop w cfg vm files).events
      ∧ (∀ o, Event.write "-" o ∉ (fmtLoop w cfg vm files).events) := by
  intro files
  induction files with
  | nil =>
    refine ⟨by simp [fmtLoop], fun o => by simp [fmtLoop]⟩
  | cons f rest ih =>
    by_cases hf : f = "-"
    · subst hf
      have hl : fmtLoop w cfg vm ("-" :: rest) =
          ⟨1, ["ERROR: cannot use --in-place with stdin"], [Event.destroy]⟩ := by
        simp [fmtLoop, fileStep_stdin hip]
      rw [hl]
      refine ⟨by simp, fun o => by simp⟩
    · rcases hstep : fileStep w cfg vm f with evs | r
      · have hl : fmtLoop w cfg vm (f :: rest) =
            RunResult.pre [] evs (fmtLoop w cfg vm rest) := by
          simp [fmtLoop, hstep]
        rw [hl]
        refine ⟨?_, ?_⟩
        · intro hmem
          simp only [RunResult.pre, List.mem_append] at hmem
          rcases hmem with hmem | hmem
          · exact hf (fileStep_cont_read hstep hmem).symm
          · exact ih.1 hmem
        · intro o hmem
          simp only [RunResult.pre, List.mem_append] at hmem
          rcases hmem with hmem | hmem
          · obtain ⟨hT2, hp, hrest⟩ := fileStep_cont_write hstep hmem
            rw [hip, if_pos rfl] at hp
            exact hf hp.symm
          · exact ih.2 o hmem
      · have hl : fmtLoop w cfg vm (f :: rest) = r := by
          simp [fmtLoop, hstep]
        rw [hl]
        refine ⟨?_, ?_⟩
        · intro hmem
          exact hf (fileStep_halt_read hstep hmem).symm
        · intro o hmem
          obtain ⟨hT2, hp, hrest⟩ := fileStep_halt_write hstep hmem
          rw [hip, if_pos rfl] at hp
          exact hf hp.symm

/-- Peeling a prefix of files each of which passes its iteration: the
loop on the concatenation behaves as the loop on the suffix with the
prefix events prepended, and every read or engine-call event of the
prefix part names a prefix file. -/
theorem fmtLoop_append {w : World} {cfg : JsonnetConfig} {vm : VmState} :
    ∀ (pre rest : List String),
    (∀ g ∈ pre, ∃ evs, fileStep w cfg vm g = StepOut.cont evs) →
    ∃ evsP, fmtLoop w cfg vm (pre ++ rest) = RunResult.pre [] evsP (fmtLoop w cfg vm rest)
      ∧ (∀ g, Event.read g ∈ evsP → g ∈ pre)
      ∧ (∀ g, Event.fmtCall g ∈ evsP → g ∈ pre) := by
  intro pre
  induction pre with
  | nil =>
    intro rest _
    refine ⟨[], ?_, by simp, by simp⟩
    simp [RunResult.pre]
  | cons g0 pre2 ih =>
    intro rest hpass
    obtain ⟨evs, hstep⟩ := hpass g0 (by simp)
    obtain ⟨evsP, heq, hrd, hfc⟩ := ih rest (fun g hg => hpass g (by simp [hg]))
    refine ⟨evs ++ evsP, ?_, ?_, ?_⟩
    · rw [List.cons_append]
      have h0 : fmtLoop w cfg vm (g0 :: (pre2 ++ rest)) =
          RunResult.pre [] evs (fmtLoop w cfg vm (pre2 ++ rest)) := by
        simp [fmtLoop, hstep]
      rw [h0, heq]
      simp [RunResult.pre, List.append_assoc]
    · intro g hg
      rcases List.mem_append.mp hg with h | h
      · simp [fileStep_cont_read hstep h]
      · simp [hrd g h]
    · intro g hg
      rcases List.mem_append.mp hg with h | h
      · simp [fileStep_cont_fmtCall hstep h]
      · simp [hfc g h]


/-- The token scan only ever stops early with ARG_SUCCESS or
ARG_FAILURE, never with ARG_CONTINUE. -/
theorem scanArgs_stop_status :
    ∀ (toks : List String) (s : ScanSt) (st : ArgStatus) (s2 : ScanSt),
    scanArgs toks s = ScanRes.stop st s2 → st ≠ ArgStatus.ARG_CONTINUE := by
  intro toks s
  induction toks, s using scanArgs.induct
  all_goals intro st s2 h hc
  all_goals subst hc
  all_goals rw [scanArgs.eq_def] at h
  all_goals simp_all
  all_goals try (rw [if_neg (by omega)] at h; simp_all)
  all_goals rename_i hcond ih
  all_goals rw [if_neg (fun hand => hcond hand.1 hand.2)] at h
  all_goals exact ih _ _ h rfl

theorem process_args_continue_ne_nil {args : List String} {vm0 : VmState}
    {cfg : JsonnetConfig} {vmx : VmState} {errs : List String}
    (h : process_args args vm0 = (ArgStatus.ARG_CONTINUE, cfg, vmx, errs)) :
    cfg.inputFiles ≠ [] := by
  unfold process_args at h
  rcases hs : scanArgs args (initSt vm0) with s | ⟨st, s2⟩
  · rw [hs] at h
    simp only at h
    split at h
    · simp_all
    · split at h
      · simp_all
      · simp only [Prod.mk.injEq] at h
        obtain ⟨h1, h2, h3, h4⟩ := h
        subst h2
        intro hnil
        simp_all
  · rw [hs] at h
    simp only at h
    simp only [Prod.mk.injEq] at h
    exact absurd h.1 (scanArgs_stop_status args (initSt vm0) st s2 hs)

/-- Test-mode loop: provided the in-place rejections do not fire, every
input reads successfully and the engine succeeds on every input, the
loop exits 0 exactly when every input formats to itself, and its exit
code is always 0 or 2. -/
theorem fmtLoop_test {w : World} {cfg : JsonnetConfig} {vm : VmState}
    (hT : cfg.fmtTest = true) :
    ∀ files : List String,
    (∀ f ∈ files, cfg.fmtInPlace = true → f ≠ "-" ∧ cfg.filenameIsCode = false) →
    (∀ f ∈ files, ∃ c, readOf w cfg.filenameIsCode f = ReadResult.ok c) →
    (∀ f c, f ∈ files → readOf w cfg.filenameIsCode f = ReadResult.ok c →
      ∃ o, w.fmt vm f c = FmtOut.ok o) →
    ((fmtLoop w cfg vm files).exit = 0 ↔ testsClean w cfg vm files)
    ∧ ((fmtLoop w cfg vm files).exit = 0 ∨ (fmtLoop w cfg vm files).exit = 2) := by
  intro files
  induction files with
  | nil =>
    intro _ _ _
    refine ⟨?_, ?_⟩
    · constructor
      · intro _ f c o hf
        simp at hf
      · intro _
        simp [fmtLoop]
    · left
      simp [fmtLoop]
  | cons f rest ih =>
    intro hrej hrd hfm
    obtain ⟨c, hc⟩ := hrd f (by simp)
    obtain ⟨o, ho⟩ := hfm f c (by simp) hc
    have h1 : ¬(cfg.fmtInPlace = true ∧ f = "-") := by
      rintro ⟨hip2, hdash⟩
      exact (hrej f (by simp) hip2).1 hdash
    have h2 : ¬(cfg.fmtInPlace = true ∧ cfg.filenameIsCode = true) := by
      rintro ⟨hip2, hcd⟩
      have hfalse := (hrej f (by simp) hip2).2
      rw [hfalse] at hcd
      cases hcd
    obtain ⟨ihiff, ihcodes⟩ := ih (fun g hg => hrej g (by simp [hg]))
      (fun g hg => hrd g (by simp [hg])) (fun g cg hg => hfm g cg (by simp [hg]))
    by_cases heq : o = c
    · subst heq
      have hstep : fileStep w cfg vm f =
          StepOut.cont (readEvents cfg.filenameIsCode f ++ [Event.fmtCall f]) := by
        simp [fileStep, h1, h2, hc, ho, hT]
      have hexit : (fmtLoop w cfg vm (f :: rest)).exit = (fmtLoop w cfg vm rest).exit := by
        simp [fmtLoop, hstep, RunResult.pre]
      refine ⟨?_, ?_⟩
      · rw [hexit, ihiff]
        constructor
        · intro hclean g cg og hg hrg hfg
          rcases List.mem_cons.mp hg with hgf | hg2
          · subst hgf
            rw [hc] at hrg
            injection hrg with e1
            subst e1
            rw [ho] at hfg
            injection hfg with e2
            exact e2.symm
          · exact hclean g cg og hg2 hrg hfg
        · intro hclean g cg og hg hrg hfg
          exact hclean g cg og (by simp [hg]) hrg hfg
      · rw [hexit]
        exact ihcodes
    · have hstep : fileStep w cfg vm f =
          StepOut.halt ⟨2, [], readEvents cfg.filenameIsCode f ++
            [Event.fmtCall f, Event.destroy]⟩ := by
        simp [fileStep, h1, h2, hc, ho, hT, heq]
      have hexit : (fmtLoop w cfg vm (f :: rest)).exit = 2 := by
        simp [fmtLoop, hstep]
      refine ⟨?_, ?_⟩
      · rw [hexit]
        constructor
        · intro h20
          cases h20
        · intro hclean
          exact absurd (hclean f c o (by simp) hc ho) heq
      · right
        exact hexit

/-- When no external call throws, the single-shot branch releases the
engine handle exactly once on every path. -/
theorem singleShot_destroy {w : World} {cfg : JsonnetConfig} {vm : VmState}
    (hRd : ∀ g, readOf w cfg.filenameIsCode g ≠ ReadResult.exn)
    (hF : ∀ g c, w.fmt vm g c ≠ FmtOut.exn)
    (hW : ∀ p c, w.writeResult p c ≠ WriteOut.exn) :
    destroyCount (singleShot w cfg vm).events = 1 := by
  unfold singleShot
  repeat' split
  all_goals simp_all [destroyCount_append, destroyCount_readEvents, destroyCount]

/-- Unfolding main when parsing returns ARG_CONTINUE: the run is the
orchestrator run, with the parse diagnostics prepended. -/
theorem mainRun_continue {w : World} {vm0 : VmState} {argv : List String}
    {cfg : JsonnetConfig} {vmx : VmState} {errs : List String}
    (hp : process_args (simplify_args argv) vm0 = (ArgStatus.ARG_CONTINUE, cfg, vmx, errs)) :
    mainRun w vm0 argv =
      ⟨(orchestrate w cfg vmx).exit, errs ++ (orchestrate w cfg vmx).errs,
       (orchestrate w cfg vmx).events⟩ := by
  unfold mainRun
  rw [hp]

/-- Unfolding main when parsing returns ARG_SUCCESS: the handle is
released and the process exits 0 (lines 224-227). -/
theorem mainRun_success {w : World} {vm0 : VmState} {argv : List String}
    {cfg : JsonnetConfig} {vmx : VmState} {errs : List String}
    (hp : process_args (simplify_args argv) vm0 = (ArgStatus.ARG_SUCCESS, cfg, vmx, errs)) :
    mainRun w vm0 argv = ⟨0, errs, [Event.destroy]⟩ := by
  unfold mainRun
  rw [hp]

/-- Unfolding main when parsing returns ARG_FAILURE: the handle is
released and the process exits 1 (lines 224-227). -/
theorem mainRun_failure {w : World} {vm0 : VmState} {argv : List String}
    {cfg : JsonnetConfig} {vmx : VmState} {errs : List String}
    (hp : process_args (simplify_args argv) vm0 = (ArgStatus.ARG_FAILURE, cfg, vmx, errs)) :
    mainRun w vm0 argv = ⟨1, errs, [Event.destroy]⟩ := by
  unfold mainRun
  rw [hp]

/-- C7: once the token -- is encountered during the token scan, every
subsequent token is appended to the positional-argument list
unconditionally - including tokens beginning with a dash or matching
known flag spellings - and flag scanning stops (falls through to
post-scan validation). -/
theorem c7_double_dash_stops_flag_scanning (s : ScanSt) (rest : List String) :
    scanArgs ("--" :: rest) s = ScanRes.done { s with rem := s.rem ++ rest } := by
  rw [scanArgs.eq_def]
  simp

/-- C8: any token that begins with a dash, is longer than one
character, and matches none of the recognized flag spellings makes the
scan fail immediately with an error message naming that token; every
parse failure makes the process exit with code 1. -/
theorem c8_unrecognized_flag_fails (t : String) (h1 : 1 < t.length)
    (h2 : t.data.head? = some '-') (h3 : t ∉ recognizedFlags) :
    (∀ (s : ScanSt) (rest : List String),
      scanArgs (t :: rest) s =
        ScanRes.stop ArgStatus.ARG_FAILURE
          { s with errs := s.errs ++ ["ERROR: unrecognized argument: " ++ t] })
    ∧ (∀ (w : World) (vm0 : VmState) (argv : List String),
        (process_args (simplify_args argv) vm0).1 = ArgStatus.ARG_FAILURE →
        (mainRun w vm0 argv).exit = 1) := by
  constructor
  · intro s rest
    simp only [recognizedFlags, List.mem_cons, List.not_mem_nil, or_false] at h3
    push_neg at h3
    obtain ⟨n1, n2, n3, n4, n5, n6, n7, n8, n9, n10, n11, n12, n13, n14, n15, n16, n17,
      n18, n19, n20, n21, n22, n23, n24, n25, n26⟩ := h3
    rw [scanArgs.eq_def]
    simp [n1, n2, n3, n4, n5, n6, n7, n8, n9, n10, n11, n12, n13, n14, n15, n16, n17,
      n18, n19, n20, n21, n22, n23, n24, n25, n26, h1, h2, pushErr]
  · intro w vm0 argv hfail
    rcases hq : process_args (simplify_args argv) vm0 with ⟨st, cfg2, vm2, errs2⟩
    rw [hq] at hfail
    simp only at hfail
    subst hfail
    rw [mainRun_failure hq]

/-- Witness for C8 at the concrete token --bogus. -/
theorem c8_witness :
    scanArgs ["--bogus"] (initSt vmAny) =
      ScanRes.stop ArgStatus.ARG_FAILURE
        { initSt vmAny with
          errs := (initSt vmAny).errs ++ ["ERROR: unrecognized argument: " ++ "--bogus"] } :=
  (c8_unrecognized_flag_fails "--bogus" (by decide) (by decide) (by decide)).1
    (initSt vmAny) []

/-- C5: post-scan validation: zero positionals fail, more than one
positional fails unless test or in-place mode is set, and otherwise the
positional list becomes inputFiles with status ARG_CONTINUE. -/
theorem c5_post_scan_validation (args : List String) (vm0 : VmState) (s : ScanSt)
    (hdone : scanArgs args (initSt vm0) = ScanRes.done s) :
    (s.rem = [] → (process_args args vm0).1 = ArgStatus.ARG_FAILURE)
    ∧ (s.cfg.fmtTest = false → s.cfg.fmtInPlace = false → 1 < s.rem.length →
        (process_args args vm0).1 = ArgStatus.ARG_FAILURE)
    ∧ (s.rem ≠ [] →
        (s.cfg.fmtTest = true ∨ s.cfg.fmtInPlace = true ∨ s.rem.length = 1) →
        process_args args vm0 =
          (ArgStatus.ARG_CONTINUE, { s.cfg with inputFiles := s.rem }, s.vm, s.errs)) := by
  refine ⟨?_, ?_, ?_⟩
  · intro hnil
    unfold process_args
    rw [hdone]
    simp [hnil]
  · intro ht hi hlen
    unfold process_args
    rw [hdone]
    dsimp only
    rw [if_neg (by omega), if_pos ⟨by simp [ht], by simp [hi], hlen⟩]
  · intro hne hmode
    unfold process_args
    rw [hdone]
    dsimp only
    rw [if_neg (by simp [hne]), if_neg ?_]
    rintro ⟨ht, hi, hlen⟩
    rcases hmode with h | h | h
    · rw [h] at ht
      exact ht rfl
    · rw [h] at hi
      exact hi rfl
    · omega

/-- Witness for C5 at the concrete argument vector with the single
positional a. -/
theorem c5_witness :
    process_args ["a"] vmAny =
      (ArgStatus.ARG_CONTINUE, { cfg0 with inputFiles := ["a"] }, vmAny, []) :=
  (c5_post_scan_validation ["a"] vmAny
      { cfg := cfg0, vm := vmAny, rem := ["a"], errs := [] } rfl).2.2
    (by simp) (Or.inr (Or.inr rfl))

/-- Counterexample to C1 as stated: with fmtTest set (together with
fmtInPlace) over the single input -, in a world where every input is
readable and the engine is the identity (so no file mismatches), the
process exits 1 - not 0 as the round-trip iff demands, and via the
generic failure code the claim says is never used. -/
theorem c1_counterexample :
    (mainRun wId vmAny ["-i", "--test", "-"]).exit = 1
    ∧ wId.fileContents "-" = ReadResult.ok "x"
    ∧ wId.fmt vmAny "-" "x" = FmtOut.ok "x" := by
  refine ⟨by decide, rfl, rfl⟩

/-- C1 (amended): in test mode, provided the in-place rejections cannot
fire (when fmtInPlace is also set, no input is the stdin sentinel and
filenameIsCode is unset), if every input is readable and the engine
formats every input without error, then: the run exits 0 exactly when
every formatted output equals its input; the exit code is always 0 or
2 - never the generic failure code 1; and any mismatch terminates the
run immediately with exit code 2 - once the first mismatching file is
reached, every read and every engine call in the trace concerns an
earlier file or the mismatching one, so no later file is read or
processed. -/
theorem c1_amended_test_roundtrip (w : World) (cfg : JsonnetConfig) (vm : VmState)
    (hT : cfg.fmtTest = true)
    (hip : cfg.fmtInPlace = true → cfg.filenameIsCode = false ∧ "-" ∉ cfg.inputFiles)
    (hrd : ∀ f ∈ cfg.inputFiles, ∃ c, readOf w cfg.filenameIsCode f = ReadResult.ok c)
    (hfm : ∀ f c, f ∈ cfg.inputFiles → readOf w cfg.filenameIsCode f = ReadResult.ok c →
      ∃ o, w.fmt vm f c = FmtOut.ok o) :
    ((orchestrate w cfg vm).exit = 0 ↔ testsClean w cfg vm cfg.inputFiles)
    ∧ ((orchestrate w cfg vm).exit = 0 ∨ (orchestrate w cfg vm).exit = 2)
    ∧ (∀ pre f post c o, cfg.inputFiles = pre ++ f :: post →
        testsClean w cfg vm pre →
        readOf w cfg.filenameIsCode f = ReadResult.ok c →
        w.fmt vm f c = FmtOut.ok o → o ≠ c →
        (orchestrate w cfg vm).exit = 2
        ∧ (∀ g, Event.read g ∈ (orchestrate w cfg vm).events → g ∈ pre ∨ g = f)
        ∧ (∀ g, Event.fmtCall g ∈ (orchestrate w cfg vm).events → g ∈ pre ∨ g = f)) := by
  have hor : orchestrate w cfg vm = fmtLoop w cfg vm cfg.inputFiles := by
    unfold orchestrate
    rw [if_pos (Or.inr hT)]
  have hnorej : ∀ g ∈ cfg.inputFiles,
      ¬(cfg.fmtInPlace = true ∧ g = "-")
      ∧ ¬(cfg.fmtInPlace = true ∧ cfg.filenameIsCode = true) := by
    intro g hg
    constructor
    · rintro ⟨hip2, hgd⟩
      exact (hip hip2).2 (hgd ▸ hg)
    · rintro ⟨hip2, hcd⟩
      have hfalse := (hip hip2).1
      rw [hfalse] at hcd
      cases hcd
  have hmain := fmtLoop_test hT cfg.inputFiles
    (fun g hg hip2 => ⟨fun he => (hip hip2).2 (he ▸ hg), (hip hip2).1⟩) hrd hfm
  refine ⟨by rw [hor]; exact hmain.1, by rw [hor]; exact hmain.2, ?_⟩
  intro pre f post c o hsplit hpreclean hr hfo hne
  have hpass : ∀ g ∈ pre, ∃ evs, fileStep w cfg vm g = StepOut.cont evs := by
    intro g hg
    have hgin : g ∈ cfg.inputFiles := by
      rw [hsplit]
      exact List.mem_append_left _ hg
    obtain ⟨cg, hcg⟩ := hrd g hgin
    obtain ⟨og, hog⟩ := hfm g cg hgin hcg
    have hoc : og = cg := hpreclean g cg og hg hcg hog
    subst hoc
    exact ⟨readEvents cfg.filenameIsCode g ++ [Event.fmtCall g],
      by simp [fileStep, (hnorej g hgin).1, (hnorej g hgin).2, hcg, hog, hT]⟩
  have hfin : f ∈ cfg.inputFiles := by
    rw [hsplit]
    exact List.mem_append_right _ (by simp)
  have hstepf : fileStep w cfg vm f = StepOut.halt
      ⟨2, [], readEvents cfg.filenameIsCode f ++ [Event.fmtCall f, Event.destroy]⟩ := by
    simp [fileStep, (hnorej f hfin).1, (hnorej f hfin).2, hr, hfo, hT, hne]
  obtain ⟨evsP, heq, hrdP, hfcP⟩ := fmtLoop_append pre (f :: post) hpass
  have hloop : fmtLoop w cfg vm cfg.inputFiles =
      ⟨2, [], evsP ++ (readEvents cfg.filenameIsCode f ++
        [Event.fmtCall f, Event.destroy])⟩ := by
    rw [hsplit, heq]
    simp [fmtLoop, hstepf, RunResult.pre]
  rw [hor, hloop]
  refine ⟨rfl, ?_, ?_⟩
  · intro g hg
    simp only [List.mem_append] at hg
    rcases hg with hg | hg | hg
    · exact Or.inl (hrdP g hg)
    · have := readEvents_mem hg
      injection this with hgf
      exact Or.inr hgf
    · simp at hg
  · intro g hg
    simp only [List.mem_append] at hg
    rcases hg with hg | hg | hg
    · exact Or.inl (hfcP g hg)
    · have := readEvents_mem hg
      cases this
    · simp at hg
      exact Or.inr hg

/-- Witness for the amended C1: test mode over a b c in a world where
only b formats differently: the run stops at b with exit 2, and every
read in the trace is of a or b - file c is never touched. -/
theorem c1_amended_witness :
    (orchestrate wDiffB cfgTest3 vmAny).exit = 2
    ∧ (∀ g, Event.read g ∈ (orchestrate wDiffB cfgTest3 vmAny).events →
        g ∈ ["a"] ∨ g = "b") := by
  have h := c1_amended_test_roundtrip wDiffB cfgTest3 vmAny rfl (fun h2 => nomatch h2)
    (fun f hf => ⟨"x", rfl⟩)
    (fun f c hf hc => by
      by_cases hb : f = "b"
      · exact ⟨"y", by simp [wDiffB, hb]⟩
      · exact ⟨c, by simp [wDiffB, hb]⟩)
  obtain ⟨hexit, hreads, hcalls⟩ := h.2.2 ["a"] "b" ["c"] "x" "y" rfl
    (by intro g cg og hg h1 h2
        simp only [List.mem_singleton] at hg
        subst hg
        simp [readOf, wDiffB, cfgTest3] at h1 h2
        simp_all)
    rfl (by simp [wDiffB]) (by decide)
  exact ⟨hexit, hreads⟩

/-- Counterexample to C2 as stated: the argument vector -i a - sets
fmtInPlace and contains the stdin sentinel among the inputs, yet in a
world where file a is readable the run reads file a before the
rejection of the sentinel - I/O is attempted before the run fails. -/
theorem c2_counterexample :
    (mainRun wId vmAny ["-i", "a", "-"]).exit = 1
    ∧ Event.read "a" ∈ (mainRun wId vmAny ["-i", "a", "-"]).events := by
  refine ⟨by decide, by decide⟩

/-- C2 (amended): with fmtInPlace set after a successful parse, the
filenameIsCode conflict always fails with exit 1 before any read or
write; a stdin-sentinel input always makes the run fail (non-zero
exit); the rejection of the sentinel happens before any I/O on that
entry - the sentinel is never read and never written in any in-place
run - and when the sentinel is the first input the failure happens
before any I/O at all; inputs listed before a later sentinel may be
read and written first. -/
theorem c2_amended_in_place_rejections (w : World) (vm0 : VmState) (argv : List String)
    (cfg : JsonnetConfig) (vmx : VmState) (errs : List String)
    (hp : process_args (simplify_args argv) vm0 = (ArgStatus.ARG_CONTINUE, cfg, vmx, errs))
    (hip : cfg.fmtInPlace = true) :
    (cfg.filenameIsCode = true →
      (mainRun w vm0 argv).exit = 1
      ∧ (∀ g, Event.read g ∉ (mainRun w vm0 argv).events)
      ∧ (∀ p o, Event.write p o ∉ (mainRun w vm0 argv).events))
    ∧ ("-" ∈ cfg.inputFiles → (mainRun w vm0 argv).exit ≠ 0)
    ∧ (cfg.inputFiles.head? = some "-" →
      (mainRun w vm0 argv).exit = 1
      ∧ (∀ g, Event.read g ∉ (mainRun w vm0 argv).events)
      ∧ (∀ p o, Event.write p o ∉ (mainRun w vm0 argv).events))
    ∧ (Event.read "-" ∉ (mainRun w vm0 argv).events
      ∧ (∀ o, Event.write "-" o ∉ (mainRun w vm0 argv).events)) := by
  have hmain := @mainRun_continue w vm0 argv cfg vmx errs hp
  have hor : orchestrate w cfg vmx = fmtLoop w cfg vmx cfg.inputFiles := by
    unfold orchestrate
    rw [if_pos (Or.inl hip)]
  refine ⟨?_, ?_, ?_, ?_, ?_⟩
  case refine_4 =>
    rw [hmain]
    show Event.read "-" ∉ (orchestrate w cfg vmx).events
    rw [hor]
    exact (fmtLoop_no_dash_io hip cfg.inputFiles).1
  case refine_5 =>
    intro o
    rw [hmain]
    show Event.write "-" o ∉ (orchestrate w cfg vmx).events
    rw [hor]
    exact (fmtLoop_no_dash_io hip cfg.inputFiles).2 o
  · intro hcode
    obtain ⟨f0, rest0, hsplit⟩ := List.exists_cons_of_ne_nil (process_args_continue_ne_nil hp)
    obtain ⟨es, hstep⟩ := @fileStep_reject w cfg vmx f0 hip hcode
    have hloop : fmtLoop w cfg vmx cfg.inputFiles = ⟨1, es, [Event.destroy]⟩ := by
      rw [hsplit]
      simp [fmtLoop, hstep]
    rw [hmain, hor, hloop]
    exact ⟨rfl, by intro g hg; simp at hg, by intro p o hpo; simp at hpo⟩
  · intro hdash
    rw [hmain]
    show (orchestrate w cfg vmx).exit ≠ 0
    rw [hor]
    exact fmtLoop_dash hip cfg.inputFiles hdash
  · intro hhead
    obtain ⟨rest0, hsplit⟩ : ∃ r, cfg.inputFiles = "-" :: r := by
      rcases hin : cfg.inputFiles with _ | ⟨f0, r⟩
      · rw [hin] at hhead
        cases hhead
      · rw [hin] at hhead
        simp only [List.head?] at hhead
        injection hhead with hf0
        exact ⟨r, by rw [hf0]⟩
    have hloop : fmtLoop w cfg vmx cfg.inputFiles =
        ⟨1, ["ERROR: cannot use --in-place with stdin"], [Event.destroy]⟩ := by
      rw [hsplit]
      simp [fmtLoop, fileStep_stdin hip]
    rw [hmain, hor, hloop]
    exact ⟨rfl, by intro g hg; simp at hg, by intro p o hpo; simp at hpo⟩

/-- Witness for the amended C2: the run -i a - fails with a non-zero
exit and its trace never reads or writes the stdin sentinel, even
though the sentinel is not the first input; additionally -i -e x is
rejected with exit 1 and an empty I/O trace. -/
theorem c2_amended_witness :
    ((mainRun wId vmAny ["-i", "a", "-"]).exit ≠ 0
     ∧ Event.read "-" ∉ (mainRun wId vmAny ["-i", "a", "-"]).events
     ∧ (∀ o, Event.write "-" o ∉ (mainRun wId vmAny ["-i", "a", "-"]).events))
    ∧ (mainRun wId vmAny ["-i", "-e", "x"]).exit = 1
    ∧ (∀ g, Event.read g ∉ (mainRun wId vmAny ["-i", "-e", "x"]).events) := by
  have hAD := c2_amended_in_place_rejections wId vmAny ["-i", "a", "-"] cfgAD vmAny []
    rfl rfl
  have hIE := c2_amended_in_place_rejections wId vmAny ["-i", "-e", "x"] cfgIE vmAny []
    rfl rfl
  exact ⟨⟨hAD.2.1 (by simp [cfgAD]), hAD.2.2.2.1, hAD.2.2.2.2⟩,
    (hIE.1 rfl).1, (hIE.1 rfl).2.1⟩

/-- Counterexample to C3 as stated: when the read of file a throws and
unwinds to the catch handlers of main, the process exits 1 without ever
calling jsonnet_destroy - the handle is not released on this path. -/
theorem c3_counterexample :
    destroyCount (mainRun wExn vmAny ["-i", "a"]).events = 0
    ∧ (mainRun wExn vmAny ["-i", "a"]).exit = 1 := by
  refine ⟨by decide, by decide⟩

/-- C3 (amended): on every control-flow path on which no external call
throws - success, argument-validation failure, and every fatal error
inside the file loop - the engine handle is released exactly once
before the process returns; on exceptional unwinding it is not
released. -/
theorem c3_amended_destroy_once (w : World) (vm0 : VmState) (argv : List String)
    (hR : ∀ g, w.fileContents g ≠ ReadResult.exn)
    (hF : ∀ v g c, w.fmt v g c ≠ FmtOut.exn)
    (hW : ∀ p c, w.writeResult p c ≠ WriteOut.exn) :
    destroyCount (mainRun w vm0 argv).events = 1 := by
  rcases hq : process_args (simplify_args argv) vm0 with ⟨st, cfg, vmx, errs⟩
  cases st
  · rw [mainRun_continue hq]
    show destroyCount (orchestrate w cfg vmx).events = 1
    have hRd : ∀ g, readOf w cfg.filenameIsCode g ≠ ReadResult.exn := by
      intro g
      unfold readOf
      split
      · simp
      · exact hR g
    unfold orchestrate
    split
    · exact fmtLoop_destroy hRd (fun g c => hF vmx g c) hW cfg.inputFiles
    · exact singleShot_destroy hRd (fun g c => hF vmx g c) hW
  · rw [mainRun_success hq]
    simp [destroyCount]
  · rw [mainRun_failure hq]
    simp [destroyCount]

/-- Witness for the amended C3: a single-shot run in the identity world
releases the handle exactly once. -/
theorem c3_amended_witness :
    destroyCount (mainRun wId vmAny ["a"]).events = 1 :=
  c3_amended_destroy_once wId vmAny ["a"] (fun g => by simp [wId])
    (fun v g c => by simp [wId]) (fun p c => by simp [wId])

/-- C4: in in-place mode (test not set), a write event occurs only for
a file whose engine output differs from the content that was read - a
file whose output equals its input is never written - and a failed
write terminates the run with the generic failure exit code. -/
theorem c4_in_place_write_discipline (w : World) (cfg : JsonnetConfig) (vm : VmState)
    (hip : cfg.fmtInPlace = true) (hT : cfg.fmtTest = false) :
    (∀ p o, Event.write p o ∈ (orchestrate w cfg vm).events →
      ∃ c, readOf w cfg.filenameIsCode p = ReadResult.ok c
        ∧ w.fmt vm p c = FmtOut.ok o ∧ o ≠ c)
    ∧ (∀ p o, Event.write p o ∈ (orchestrate w cfg vm).events →
        w.writeResult p o = WriteOut.fail → (orchestrate w cfg vm).exit = 1) := by
  have hor : orchestrate w cfg vm = fmtLoop w cfg vm cfg.inputFiles := by
    unfold orchestrate
    rw [if_pos (Or.inl hip)]
  rw [hor]
  exact ⟨fun p o h => fmtLoop_write_char hip cfg.inputFiles p o h,
    fun p o h hf => fmtLoop_write_fail cfg.inputFiles p o h hf⟩

/-- Witness for C4: the in-place configuration over file a in the
identity world (output always equals input). -/
theorem c4_witness :
    (cfgInPlace1.fmtInPlace = true ∧ cfgInPlace1.fmtTest = false)
    ∧ (∀ p o, Event.write p o ∈ (orchestrate wId cfgInPlace1 vmAny).events →
        ∃ c, readOf wId cfgInPlace1.filenameIsCode p = ReadResult.ok c
          ∧ wId.fmt vmAny p c = FmtOut.ok o ∧ o ≠ c) :=
  ⟨⟨rfl, rfl⟩, (c4_in_place_write_discipline wId cfgInPlace1 vmAny rfl rfl).1⟩

/-- C6: in in-place or test mode, if the engine reports an error on a
file (all earlier files having passed), the engine error output is
surfaced on the error stream and the whole run stops with the generic
failure code: every read or engine call in the trace concerns an
earlier file or the failing one - no later file is touched. -/
theorem c6_engine_error_fatal (w : World) (cfg : JsonnetConfig) (vm : VmState)
    (pre post : List String) (f c m : String)
    (hmode : cfg.fmtInPlace = true ∨ cfg.fmtTest = true)
    (hsplit : cfg.inputFiles = pre ++ f :: post)
    (hpass : ∀ g ∈ pre, ∃ evs, fileStep w cfg vm g = StepOut.cont evs)
    (h1 : ¬(cfg.fmtInPlace = true ∧ f = "-"))
    (h2 : ¬(cfg.fmtInPlace = true ∧ cfg.filenameIsCode = true))
    (hr : readOf w cfg.filenameIsCode f = ReadResult.ok c)
    (he : w.fmt vm f c = FmtOut.err m) :
    (orchestrate w cfg vm).exit = 1
    ∧ m ∈ (orchestrate w cfg vm).errs
    ∧ (∀ g, Event.read g ∈ (orchestrate w cfg vm).events → g ∈ pre ∨ g = f)
    ∧ (∀ g, Event.fmtCall g ∈ (orchestrate w cfg vm).events → g ∈ pre ∨ g = f) := by
  have hor : orchestrate w cfg vm = fmtLoop w cfg vm cfg.inputFiles := by
    unfold orchestrate
    rcases hmode with h | h <;> rw [if_pos (by rw [h]; simp)]
  have hstep : fileStep w cfg vm f = StepOut.halt
      ⟨1, [m], readEvents cfg.filenameIsCode f ++ [Event.fmtCall f, Event.destroy]⟩ := by
    simp [fileStep, h1, h2, hr, he]
  obtain ⟨evsP, heq, hrd, hfc⟩ := fmtLoop_append pre (f :: post) hpass
  have hloop : fmtLoop w cfg vm cfg.inputFiles =
      ⟨1, [m], evsP ++ (readEvents cfg.filenameIsCode f ++ [Event.fmtCall f, Event.destroy])⟩ := by
    rw [hsplit, heq]
    simp [fmtLoop, hstep, RunResult.pre]
  rw [hor, hloop]
  refine ⟨rfl, by simp, ?_, ?_⟩
  · intro g hg
    simp only [List.mem_append] at hg
    rcases hg with hg | hg | hg
    · exact Or.inl (hrd g hg)
    · have := readEvents_mem hg
      injection this with hgf
      exact Or.inr hgf
    · simp at hg
  · intro g hg
    simp only [List.mem_append] at hg
    rcases hg with hg | hg | hg
    · exact Or.inl (hfc g hg)
    · have := readEvents_mem hg
      cases this
    · simp at hg
      exact Or.inr hg

/-- Witness for C6: test mode over a b c where the engine errors on b:
exit 1 with the engine message surfaced. -/
theorem c6_witness :
    (orchestrate wErrB cfgTest3 vmAny).exit = 1
    ∧ "boom" ∈ (orchestrate wErrB cfgTest3 vmAny).errs := by
  have h := c6_engine_error_fatal wErrB cfgTest3 vmAny ["a"] ["c"] "b" "x" "boom"
    (Or.inr rfl) rfl
    (by intro g hg
        simp only [List.mem_singleton] at hg
        subst hg
        exact ⟨[Event.read "a", Event.fmtCall "a"], rfl⟩)
    (fun hand => nomatch hand.1) (fun hand => nomatch hand.1) rfl rfl
  exact ⟨h.1, h.2.1⟩

/-- C9: when fmtInPlace and fmtTest are both set, the test comparison
takes precedence: no write event ever occurs; the in-place rejections
still apply - filenameIsCode makes the run exit 1 at the first entry,
and a stdin-sentinel entry anywhere makes the run fail. -/
theorem c9_test_precedence_over_in_place (w : World) (cfg : JsonnetConfig) (vm : VmState)
    (hip : cfg.fmtInPlace = true) (hT : cfg.fmtTest = true)
    (hne : cfg.inputFiles ≠ []) :
    (∀ p o, Event.write p o ∉ (orchestrate w cfg vm).events)
    ∧ (cfg.filenameIsCode = true → (orchestrate w cfg vm).exit = 1)
    ∧ ("-" ∈ cfg.inputFiles → (orchestrate w cfg vm).exit ≠ 0) := by
  have hor : orchestrate w cfg vm = fmtLoop w cfg vm cfg.inputFiles := by
    unfold orchestrate
    rw [if_pos (Or.inl hip)]
  rw [hor]
  refine ⟨fun p o => fmtLoop_nowrite hT cfg.inputFiles p o, ?_,
    fun hd => fmtLoop_dash hip cfg.inputFiles hd⟩
  intro hcode
  obtain ⟨f0, rest0, hsplit⟩ := List.exists_cons_of_ne_nil hne
  obtain ⟨es, hstep⟩ := @fileStep_reject w cfg vm f0 hip hcode
  rw [hsplit]
  simp [fmtLoop, hstep]

/-- Witness for C9: both modes over file a in the identity world. -/
theorem c9_witness :
    (cfgBoth.fmtInPlace = true ∧ cfgBoth.fmtTest = true)
    ∧ (∀ p o, Event.write p o ∉ (orchestrate wId cfgBoth vmAny).events) :=
  ⟨⟨rfl, rfl⟩, (c9_test_precedence_over_in_place wId cfgBoth vmAny rfl rfl
    (by simp [cfgBoth])).1⟩

/-- C10: in single-shot mode, once the input is read and formatted
successfully, a write of the formatted output to the configured
destination (the named output file, or standard output for the empty
path) is always attempted - with no comparison against the input. -/
theorem c10_single_shot_writes_unconditionally (w : World) (cfg : JsonnetConfig)
    (vm : VmState) (c o : String)
    (hip : cfg.fmtInPlace = false) (hT : cfg.fmtTest = false)
    (hr : readOf w cfg.filenameIsCode (cfg.inputFiles.headD "") = ReadResult.ok c)
    (hf : w.fmt vm (cfg.inputFiles.headD "") c = FmtOut.ok o) :
    Event.write cfg.outputFile o ∈ (orchestrate w cfg vm).events := by
  have hor : orchestrate w cfg vm = singleShot w cfg vm := by
    unfold orchestrate
    rw [if_neg]
    rintro (h | h)
    · rw [hip] at h
      cases h
    · rw [hT] at h
      cases h
  rcases hw : w.writeResult cfg.outputFile o with _ | _ | _ <;>
    (rw [hor]
     unfold singleShot
     rw [hr]
     dsimp only
     rw [hf]
     dsimp only
     rw [hw]
     simp)

/-- Witness for C10: the single-shot run over file a in the identity
world writes the output to standard output even though it equals the
input byte-for-byte. -/
theorem c10_witness :
    (readOf wId cfgSingle.filenameIsCode (cfgSingle.inputFiles.headD "") = ReadResult.ok "x"
     ∧ wId.fmt vmAny (cfgSingle.inputFiles.headD "") "x" = FmtOut.ok "x")
    ∧ Event.write cfgSingle.outputFile "x" ∈ (orchestrate wId cfgSingle vmAny).events :=
  ⟨⟨rfl, rfl⟩, c10_single_shot_writes_unconditionally wId cfgSingle vmAny "x" "x"
    rfl rfl rfl rfl⟩

end Jsonnetfmt
